import Mathlib

/-!
Verification of the collision-detection pipeline in `src/FGAme/physics/broadphase.py`:
the two sweep-and-prune broad phases (`BroadPhaseAABB`, `BroadPhaseCBB`), the
narrow phase (`NarrowPhase.update`, `NarrowPhase.get_collision`) with its
self-extending dispatch registry, and the `get_groups` utility.

Machine reals of the source are embedded as `Int`; the circular-bound test
`(A.pos - B.pos).norm() > rA + rB` is expressed without square roots as the
equivalent condition on squared distances.
-/

namespace FGAme

/-- Modelled from the spec: the external Body contract consumed by the pipeline —
horizontal extent `xmin`/`xmax` (and vertical `ymin`/`ymax` used by the shadow
test), a position and bounding radius for the circular variant, the
`is_dynamic()` predicate, the `is_sleep` flag, and a concrete type tag used as
dispatch key by the narrow phase. -/
structure Body where
  xmin : Int
  xmax : Int
  ymin : Int
  ymax : Int
  posx : Int
  posy : Int
  cbb_radius : Int
  is_dynamic : Bool
  is_sleep : Bool
  typ : Nat
deriving DecidableEq

/-- Modelled from the spec: the external `mathtools.shadow_y`, the overlap of the
vertical (y) projections of the two bodies; positive exactly when the shadows
strictly overlap. -/
def shadow_y (A B : Body) : Int :=
  min A.ymax B.ymax - max A.ymin B.ymin

/-- Sort key / sweep lower extent for the AABB variant (`obj.xmin`). -/
def aabbLeft (b : Body) : Int := b.xmin

/-- Sweep upper extent for the AABB variant (`obj.xmax`). -/
def aabbRight (b : Body) : Int := b.xmax

/-- The fine test of `BroadPhaseAABB.update`: the pair is kept when
`shadow_y(A, B) <= 0` does NOT hold, i.e. when the vertical shadow is strictly
positive. -/
def aabbFine (A B : Body) : Bool := decide (0 < shadow_y A B)

/-- Sort key / sweep lower extent for the CBB variant (`obj.pos.x - obj.cbb_radius`). -/
def cbbLeft (b : Body) : Int := b.posx - b.cbb_radius

/-- Sweep upper extent for the CBB variant (`obj.pos.x + obj.cbb_radius`). -/
def cbbRight (b : Body) : Int := b.posx + b.cbb_radius

/-- Squared Euclidean distance between the two bodies' centers. -/
def distSq (A B : Body) : Int :=
  (A.posx - B.posx) * (A.posx - B.posx) + (A.posy - B.posy) * (A.posy - B.posy)

/-- The fine test of `BroadPhaseCBB.update`: the pair is kept when
`(A.pos - B.pos).norm() > A.cbb_radius + B.cbb_radius` does NOT hold; over the
reals `norm <= s` is equivalent to `0 <= s` together with `distSq <= s * s`,
which is how the square-root-free embedding states it. -/
def cbbFine (A B : Body) : Bool :=
  decide (0 ≤ A.cbb_radius + B.cbb_radius ∧
    distSq A B ≤ (A.cbb_radius + B.cbb_radius) * (A.cbb_radius + B.cbb_radius))

/-- The inner loop of the sweep (`for j in range(i + 1, len(objects))`): scan the
bodies after `A` in sorted order, `break` as soon as `B`'s lower extent exceeds
`A`'s upper extent, `continue` past pairs that are both non-dynamic, both
asleep, or fail the fine bounding-volume test, and emit the pair otherwise. -/
def innerScan (left right : Body → Int) (fine : Body → Body → Bool) (A : Body) :
    List Body → List (Body × Body)
  | [] => []
  | B :: rest =>
    if right A < left B then []
    else if !A.is_dynamic && !B.is_dynamic then innerScan left right fine A rest
    else if A.is_sleep && B.is_sleep then innerScan left right fine A rest
    else if fine A B then (A, B) :: innerScan left right fine A rest
    else innerScan left right fine A rest

/-- The outer loop of the sweep (`for i, A in enumerate(objects)`): run the inner
scan of each body over its suffix and concatenate the emitted pairs in order. -/
def sweep (left right : Body → Int) (fine : Body → Body → Bool) :
    List Body → List (Body × Body)
  | [] => []
  | A :: rest => innerScan left right fine A rest ++ sweep left right fine rest

/-- `sorted(L, key=...)`: stable sort of the body list by the variant's lower
extent. -/
def sortByLeft (left : Body → Int) (L : List Body) : List Body :=
  L.mergeSort fun a b => decide (left a ≤ left b)

/-- `BroadPhaseAABB.update(L)`: sort by `xmin` and sweep with the
positive-vertical-shadow fine test; the result list replaces the held data. -/
def BroadPhaseAABB.update (L : List Body) : List (Body × Body) :=
  sweep aabbLeft aabbRight aabbFine (sortByLeft aabbLeft L)

/-- `BroadPhaseCBB.update(L)`: sort by `pos.x - cbb_radius` and sweep with the
circular-bound fine test; the result list replaces the held data. -/
def BroadPhaseCBB.update (L : List Body) : List (Body × Body) :=
  sweep cbbLeft cbbRight cbbFine (sortByLeft cbbLeft L)

/-- The emission conditions of the inner scan apart from the sweep break: not
both bodies non-dynamic, not both asleep, and the fine test passes. -/
def emitOk (fine : Body → Body → Bool) (A B : Body) : Prop :=
  (A.is_dynamic = true ∨ B.is_dynamic = true) ∧
    ¬(A.is_sleep = true ∧ B.is_sleep = true) ∧ fine A B = true

/-- The AABB variant's bounding-volume overlap test on an unordered pair: the
horizontal intervals `[xmin, xmax]` intersect and the vertical shadow is
strictly positive. -/
def aabbOverlap (A B : Body) : Prop :=
  max A.xmin B.xmin ≤ min A.xmax B.xmax ∧ 0 < shadow_y A B

/-- The CBB variant's bounding-volume overlap test on an unordered pair: the
center distance is at most the sum of the bounding radii (stated on squares). -/
def cbbOverlap (A B : Body) : Prop :=
  0 ≤ A.cbb_radius + B.cbb_radius ∧
    distSq A B ≤ (A.cbb_radius + B.cbb_radius) * (A.cbb_radius + B.cbb_radius)

/-- Both bodies of the pair are non-dynamic (static or kinematic). -/
@[reducible] def bothNonDynamic (A B : Body) : Prop :=
  A.is_dynamic = false ∧ B.is_dynamic = false

/-- Both bodies of the pair are asleep. -/
@[reducible] def bothAsleep (A B : Body) : Prop :=
  A.is_sleep = true ∧ B.is_sleep = true

/-- `X` occurs strictly before `Y` in the list `S`. -/
def OrderedIn (S : List Body) (X Y : Body) : Prop :=
  ∃ s₁ s₂ s₃, S = s₁ ++ X :: s₂ ++ Y :: s₃

/-- Modelled from the spec: the Contact/Collision contract — the colliding pair,
a mutable contact normal vector, and a `world` back-reference settable by the
narrow phase. -/
structure Contact where
  first : Body
  second : Body
  normal : Int × Int
  world : Option Nat
deriving DecidableEq

/-- Modelled from the spec: `Collision.swapped()` returns an equivalent contact
with roles and normal reversed. -/
def Contact.swapped (c : Contact) : Contact :=
  { first := c.second, second := c.first,
    normal := (-c.normal.1, -c.normal.2), world := c.world }

/-- `col.normal *= -1`: the same contact with only its normal negated (roles are
left untouched). -/
def Contact.negNormal (c : Contact) : Contact :=
  { c with normal := (-c.normal.1, -c.normal.2) }

/-- `col.world = w`: the same contact with its world back-reference set. -/
def Contact.setWorld (c : Contact) (w : Option Nat) : Contact :=
  { c with world := w }

/-- Modelled from the spec: an entry of the dispatch registry, as a tagged
variant over direct tests, the synthesized swapped-wrapper (`inverse`) tests,
and the generic fallback. -/
inductive Test where
  /-- A specific intersection-test implementation registered for a type pair. -/
  | base (f : Body → Body → Option Contact) : Test
  /-- The `inverse` wrapper synthesized by `NarrowPhase.get_collision`: calls
  the stored implementation with swapped arguments and returns
  `col.swapped()` when a contact is produced. -/
  | inv (t : Test) : Test
  /-- The generic shape-agnostic fallback `get_collision_generic`. -/
  | generic : Test

/-- Modelled from the spec: the dispatch registry — a mapping keyed by the
ordered pair of concrete type tags; `none` is the distinguished
"not implemented" signal (`CollisionError`). -/
def Registry : Type := Nat × Nat → Option Test

/-- Modelled from the spec: dynamic registration
(`get_collision[typeA, typeB] = test`). -/
def Registry.register (r : Registry) (k : Nat × Nat) (t : Test) : Registry :=
  fun p => if p = k then some t else r p

/-- Run a registry entry on a pair of bodies: a base test applies its function,
the `inverse` wrapper runs the stored test with swapped arguments and applies
`Contact.swapped` to a produced contact (`None` propagates), and the generic
entry applies the generic fallback `gen`. -/
def runTest (gen : Body → Body → Option Contact) : Test → Body → Body → Option Contact
  | .base f, A, B => f A B
  | .inv t, A, B => Option.map Contact.swapped (runTest gen t B A)
  | .generic, A, B => gen A B

/-- `NarrowPhase.get_collision(A, B)`: try the direct entry for
`(type(A), type(B))` and return its result as-is; on `CollisionError` try the
reversed entry for `(type(B), type(A))` — if it exists and reports no collision
return `None` unchanged, if it reports a collision negate the normal, register
the `inverse` wrapper under `(type(A), type(B))` and return the corrected
contact; if neither entry exists, register the generic fallback under both
ordered type pairs and return `get_collision_generic(A, B)`. Returns the
result together with the (possibly extended) registry. -/
def NarrowPhase.get_collision (gen : Body → Body → Option Contact) (r : Registry)
    (A B : Body) : Option Contact × Registry :=
  match r (A.typ, B.typ) with
  | some t => (runTest gen t A B, r)
  | none =>
    match r (B.typ, A.typ) with
    | some t =>
      match runTest gen t B A with
      | none => (none, r)
      | some col =>
        (some col.negNormal, r.register (A.typ, B.typ) (Test.inv t))
    | none =>
      (gen A B,
        (r.register (A.typ, B.typ) Test.generic).register (B.typ, A.typ) Test.generic)

/-- The raw per-pair outcomes of resolving a list of candidate pairs in order,
threading the registry state from one resolution to the next. -/
def resolveAll (gen : Body → Body → Option Contact) (r : Registry) :
    List (Body × Body) → List (Option Contact)
  | [] => []
  | (A, B) :: ps =>
    let res := NarrowPhase.get_collision gen r A B
    res.1 :: resolveAll gen res.2 ps

/-- `NarrowPhase.update(broad_cols)`: resolve each candidate pair in order with
`get_collision`; a pair whose resolution reports no collision is silently
dropped, and each produced contact has `col.world = self.world` set before
being appended to the fresh result list. Returns the new result list together
with the final registry. -/
def NarrowPhase.update (gen : Body → Body → Option Contact) (world : Option Nat)
    (r : Registry) : List (Body × Body) → List Contact × Registry
  | [] => ([], r)
  | (A, B) :: ps =>
    match NarrowPhase.get_collision gen r A B with
    | (none, r1) => NarrowPhase.update gen world r1 ps
    | (some col, r1) =>
      let rest := NarrowPhase.update gen world r1 ps
      (col.setWorld world :: rest.1, rest.2)

/-- `NarrowPhase.get_groups(cols)`: the source builds `BroadPhaseAABB(cols)`
(whose constructor merely stores `cols` as its data), prints it, and falls off
the end of the function — so the held data of the constructed phase is `cols`
(first component) and the returned value is `None` (second component). -/
def NarrowPhase.get_groups (cols : List Contact) :
    List Contact × Option (List (List Body)) :=
  (cols, none)

/-- The phase-object state shared by the broad phases: the owning world and the
held result list `_data` (pairs of bodies). -/
structure BroadPhaseState where
  world : Option Nat
  _data : List (Body × Body)

/-- `BroadPhaseAABB.update` as a method on the phase state: `self._data[:] = []`
followed by the sweep appends — the held list is replaced by the fresh result. -/
def BroadPhaseAABB.updatePhase (p : BroadPhaseState) (L : List Body) : BroadPhaseState :=
  { p with _data := BroadPhaseAABB.update L }

/-- `BroadPhaseCBB.update` as a method on the phase state. -/
def BroadPhaseCBB.updatePhase (p : BroadPhaseState) (L : List Body) : BroadPhaseState :=
  { p with _data := BroadPhaseCBB.update L }

/-- The narrow-phase object state: the owning world and the held contact list. -/
structure NarrowPhaseState where
  world : Option Nat
  _data : List Contact

/-- `NarrowPhase.update` as a method on the phase state (`self._data = cols`):
the held list is replaced by the fresh result; the module-level dispatch
registry is threaded alongside. -/
def NarrowPhase.updatePhase (gen : Body → Body → Option Contact)
    (p : NarrowPhaseState) (r : Registry) (ps : List (Body × Body)) :
    NarrowPhaseState × Registry :=
  let res := NarrowPhase.update gen p.world r ps
  ({ p with _data := res.1 }, res.2)

/-- The emission conditions of the inner scan as a boolean: the pair is kept by
the `continue` checks exactly when this is `true`. -/
def emitB (fine : Body → Body → Bool) (A B : Body) : Bool :=
  (A.is_dynamic || B.is_dynamic) && !(A.is_sleep && B.is_sleep) && fine A B

/-- Two optional contacts are equal up to the normal-vector sign convention:
both absent, or both present describing the same unordered pair of bodies with
the same world reference and normals equal up to sign. -/
def signEquiv : Option Contact → Option Contact → Prop
  | none, none => True
  | some c, some d =>
    c.world = d.world ∧
      ((c.first = d.first ∧ c.second = d.second) ∨
        (c.first = d.second ∧ c.second = d.first)) ∧
      (c.normal = d.normal ∨ c.normal = (-d.normal.1, -d.normal.2))
  | _, _ => False

/-! ## Concrete instances used to exercise the definitions -/

/-- A dynamic awake body with box `[0,2] × [0,2]`, center `(0,0)`, radius 1,
type tag 0. -/
def bodyP : Body := ⟨0, 2, 0, 2, 0, 0, 1, true, false, 0⟩

/-- A dynamic awake body overlapping `bodyP`: box `[1,3] × [0,2]`, center
`(1,0)`, radius 1, type tag 1. -/
def bodyQ : Body := ⟨1, 3, 0, 2, 1, 0, 1, true, false, 1⟩

/-- A dynamic awake body exactly touching `bodyP`: box `[2,4] × [0,2]` (so its
`xmin` equals `bodyP.xmax`) and center `(2,0)` with radius 1 (so the center
distance equals the radius sum). -/
def bodyR : Body := ⟨2, 4, 0, 2, 2, 0, 1, true, false, 1⟩

/-- A body of type tag 0 used to exercise the narrow phase. -/
def bodyA0 : Body := ⟨0, 0, 0, 0, 0, 0, 0, true, false, 0⟩

/-- A body of type tag 1 used to exercise the narrow phase. -/
def bodyB0 : Body := ⟨0, 0, 0, 0, 0, 0, 0, true, false, 1⟩

/-- A generic fallback returning a contact for the given pair. -/
def genW : Body → Body → Option Contact := fun A B => some ⟨A, B, (1, 0), none⟩

/-- A specific test returning a contact with normal `(2, 3)` for the given pair. -/
def fW : Body → Body → Option Contact := fun A B => some ⟨A, B, (2, 3), none⟩

/-- A specific test that never reports a collision. -/
def fNoneW : Body → Body → Option Contact := fun _ _ => none

/-- The empty dispatch registry. -/
def emptyReg : Registry := fun _ => none

/-- A registry holding only a test for the reversed type pair `(1, 0)`. -/
def regW : Registry := emptyReg.register (1, 0) (Test.base fW)

/-- A registry holding only a never-colliding test for the reversed type pair
`(1, 0)`. -/
def regNoneW : Registry := emptyReg.register (1, 0) (Test.base fNoneW)

/-- The single candidate pair `(bodyA0, bodyB0)`. -/
def pairsW : List (Body × Body) := [(bodyA0, bodyB0)]

/-- A concrete contact between `bodyA0` and `bodyB0`. -/
def contactW : Contact := ⟨bodyA0, bodyB0, (1, 0), none⟩

/-! ## Broad-phase sweep lemmas -/

section Sweep

variable {left right : Body → Int} {fine : Body → Body → Bool}

theorem emitB_eq_true_iff {A B : Body} :
    emitB fine A B = true ↔ emitOk fine A B := by
  cases hA : A.is_dynamic <;> cases hB : B.is_dynamic <;>
    cases hS : A.is_sleep <;> cases hT : B.is_sleep <;>
      simp [emitB, emitOk, hA, hB, hS, hT]

theorem innerScan_eq (A : Body) (l : List Body) :
    innerScan left right fine A l =
      ((l.takeWhile fun B => decide (left B ≤ right A)).filter
        (emitB fine A)).map fun B => (A, B) := by
  induction l with
  | nil => rfl
  | cons B rest ih =>
    rw [innerScan, List.takeWhile_cons]
    by_cases hbreak : right A < left B
    · have : ¬ left B ≤ right A := not_le.mpr hbreak
      simp [hbreak, this]
    · have hle : left B ≤ right A := not_lt.mp hbreak
      by_cases hdyn : !A.is_dynamic && !B.is_dynamic
      · have : emitB fine A B = false := by
          simp only [Bool.and_eq_true, Bool.not_eq_true'] at hdyn
          simp [emitB, hdyn.1, hdyn.2]
        simp [hbreak, hle, hdyn, List.filter_cons, this, ih]
      · by_cases hsleep : A.is_sleep && B.is_sleep
        · have : emitB fine A B = false := by
            simp only [Bool.and_eq_true] at hsleep
            simp [emitB, hsleep.1, hsleep.2]
          simp [hbreak, hle, hdyn, hsleep, List.filter_cons, this, ih]
        · by_cases hfine : fine A B
          · have : emitB fine A B = true := by
              simp only [Bool.and_eq_true, Bool.not_eq_true'] at hdyn hsleep
              cases hA : A.is_dynamic <;> cases hB : B.is_dynamic <;>
                cases hS : A.is_sleep <;> cases hT : B.is_sleep <;>
                  simp_all [emitB]
            simp [hbreak, hle, hdyn, hsleep, hfine, List.filter_cons, this, ih]
          · have : emitB fine A B = false := by simp [emitB, hfine]
            simp [hbreak, hle, hdyn, hsleep, hfine, List.filter_cons, this, ih]

theorem takeWhile_mem_decomp {p : Body → Bool} {Y : Body} : ∀ {l : List Body},
    Y ∈ l.takeWhile p ↔
      ∃ l₁ l₂, l = l₁ ++ Y :: l₂ ∧ (∀ M ∈ l₁, p M = true) ∧ p Y = true
  | [] => by simp
  | B :: rest => by
    rw [List.takeWhile_cons]
    by_cases hB : p B
    · simp only [hB, if_true, List.mem_cons]
      constructor
      · rintro (rfl | hmem)
        · exact ⟨[], rest, rfl, by simp, hB⟩
        · obtain ⟨l₁, l₂, rfl, hall, hY⟩ := takeWhile_mem_decomp.mp hmem
          exact ⟨B :: l₁, l₂, rfl, by
            intro M hM
            rcases List.mem_cons.mp hM with rfl | hM
            · exact hB
            · exact hall M hM, hY⟩
      · rintro ⟨l₁, l₂, hdec, hall, hY⟩
        cases l₁ with
        | nil =>
          simp only [List.nil_append, List.cons.injEq] at hdec
          exact Or.inl hdec.1.symm
        | cons M l₁ =>
          simp only [List.cons_append, List.cons.injEq] at hdec
          refine Or.inr (takeWhile_mem_decomp.mpr ⟨l₁, l₂, hdec.2, ?_, hY⟩)
          intro N hN
          exact hall N (List.mem_cons_of_mem M hN)
    · simp only [hB, Bool.false_eq_true, if_false, List.not_mem_nil, false_iff]
      rintro ⟨l₁, l₂, hdec, hall, hY⟩
      cases l₁ with
      | nil =>
        simp only [List.nil_append, List.cons.injEq] at hdec
        exact hB (hdec.1 ▸ hY)
      | cons M l₁ =>
        simp only [List.cons_append, List.cons.injEq] at hdec
        exact hB (hdec.1 ▸ hall M (List.mem_cons_self M l₁))

theorem mem_innerScan {A X Y : Body} {l : List Body} :
    (X, Y) ∈ innerScan left right fine A l ↔
      X = A ∧ Y ∈ l.takeWhile (fun B => decide (left B ≤ right A)) ∧
        emitOk fine A Y := by
  rw [innerScan_eq]
  simp only [List.mem_map, List.mem_filter, Prod.mk.injEq]
  constructor
  · rintro ⟨B, ⟨hmem, hemit⟩, rfl, rfl⟩
    exact ⟨rfl, hmem, emitB_eq_true_iff.mp hemit⟩
  · rintro ⟨rfl, hmem, hemit⟩
    exact ⟨Y, ⟨hmem, emitB_eq_true_iff.mpr hemit⟩, rfl, rfl⟩

theorem mem_sweep {X Y : Body} : ∀ {S : List Body},
    (X, Y) ∈ sweep left right fine S ↔
      ∃ s₁ s₂, S = s₁ ++ X :: s₂ ∧ (X, Y) ∈ innerScan left right fine X s₂
  | [] => by simp [sweep]
  | A :: rest => by
    rw [sweep, List.mem_append]
    constructor
    · rintro (hmem | hmem)
      · obtain ⟨rfl, -, -⟩ := mem_innerScan.mp hmem
        exact ⟨[], rest, rfl, hmem⟩
      · obtain ⟨s₁, s₂, rfl, hin⟩ := mem_sweep.mp hmem
        exact ⟨A :: s₁, s₂, rfl, hin⟩
    · rintro ⟨s₁, s₂, hdec, hin⟩
      cases s₁ with
      | nil =>
        simp only [List.nil_append, List.cons.injEq] at hdec
        obtain ⟨rfl, rfl⟩ := hdec
        exact Or.inl hin
      | cons M s₁ =>
        simp only [List.cons_append, List.cons.injEq] at hdec
        exact Or.inr (mem_sweep.mpr ⟨s₁, s₂, hdec.2, hin⟩)

theorem orderedIn_mem {l : List Body} {X Y : Body} (h : OrderedIn l X Y) :
    X ∈ l ∧ Y ∈ l := by
  obtain ⟨s₁, s₂, s₃, rfl⟩ := h
  constructor <;> simp

theorem orderedIn_total {l : List Body} {X Y : Body} (hx : X ∈ l) (hy : Y ∈ l)
    (hne : X ≠ Y) : OrderedIn l X Y ∨ OrderedIn l Y X := by
  induction l with
  | nil => simp at hx
  | cons h t ih =>
    by_cases hXh : X = h
    · have hyt : Y ∈ t := by
        rcases List.mem_cons.mp hy with h1 | h1
        · exact absurd (hXh.trans h1.symm) hne
        · exact h1
      obtain ⟨s, u, rfl⟩ := List.append_of_mem hyt
      exact Or.inl ⟨[], s, u, by simp [hXh]⟩
    · by_cases hYh : Y = h
      · have hxt : X ∈ t := by
          rcases List.mem_cons.mp hx with h1 | h1
          · exact absurd h1 hXh
          · exact h1
        obtain ⟨s, u, rfl⟩ := List.append_of_mem hxt
        exact Or.inr ⟨[], s, u, by simp [hYh]⟩
      · have hxt : X ∈ t := by
          rcases List.mem_cons.mp hx with h1 | h1
          · exact absurd h1 hXh
          · exact h1
        have hyt : Y ∈ t := by
          rcases List.mem_cons.mp hy with h1 | h1
          · exact absurd h1 hYh
          · exact h1
        rcases ih hxt hyt with ⟨s₁, s₂, s₃, rfl⟩ | ⟨s₁, s₂, s₃, rfl⟩
        · exact Or.inl ⟨h :: s₁, s₂, s₃, by simp⟩
        · exact Or.inr ⟨h :: s₁, s₂, s₃, by simp⟩

theorem orderedIn_ne {l : List Body} {X Y : Body} (hn : l.Nodup)
    (h : OrderedIn l X Y) : X ≠ Y := by
  obtain ⟨s₁, s₂, s₃, rfl⟩ := h
  intro he
  rw [List.nodup_append] at hn
  exact hn.2.2 (by simp) (List.mem_cons.mpr (Or.inl he))

theorem sweep_sound {S : List Body} {X Y : Body}
    (hs : S.Pairwise fun a b => left a ≤ left b)
    (h : (X, Y) ∈ sweep left right fine S) :
    OrderedIn S X Y ∧ left X ≤ left Y ∧ left Y ≤ right X ∧ emitOk fine X Y := by
  obtain ⟨s₁, s₂, rfl, hin⟩ := mem_sweep.mp h
  obtain ⟨-, hmem, hemit⟩ := mem_innerScan.mp hin
  obtain ⟨l₁, l₂, rfl, hall, hY⟩ := takeWhile_mem_decomp.mp hmem
  have hord : OrderedIn (s₁ ++ X :: (l₁ ++ Y :: l₂)) X Y := ⟨s₁, l₁, l₂, by simp⟩
  have hsuffix : (X :: (l₁ ++ Y :: l₂)).Pairwise fun a b => left a ≤ left b :=
    List.Pairwise.sublist (List.sublist_append_right s₁ _) hs
  have hXY : left X ≤ left Y := by
    have := (List.pairwise_cons.mp hsuffix).1
    exact this Y (List.mem_append.mpr (Or.inr (List.mem_cons_self _ _)))
  exact ⟨hord, hXY, by simpa using hY, hemit⟩

theorem sweep_complete {S : List Body} {X Y : Body}
    (hs : S.Pairwise fun a b => left a ≤ left b)
    (hd : OrderedIn S X Y) (hxy : left Y ≤ right X) (he : emitOk fine X Y) :
    (X, Y) ∈ sweep left right fine S := by
  obtain ⟨s₁, s₂, s₃, rfl⟩ := hd
  refine mem_sweep.mpr ⟨s₁, s₂ ++ Y :: s₃, by simp, ?_⟩
  refine mem_innerScan.mpr ⟨rfl, ?_, he⟩
  refine takeWhile_mem_decomp.mpr ⟨s₂, s₃, rfl, ?_, by simpa using hxy⟩
  intro M hM
  have hsuffix : (s₂ ++ Y :: s₃).Pairwise fun a b => left a ≤ left b := by
    have h1 : (s₂ ++ Y :: s₃).Sublist (s₁ ++ X :: s₂ ++ Y :: s₃) := by
      rw [List.append_assoc, List.cons_append]
      exact (List.sublist_cons_self _ _).trans (List.sublist_append_right s₁ _)
    exact List.Pairwise.sublist h1 hs
  have hMY : left M ≤ left Y := by
    obtain ⟨-, -, hrel⟩ := List.pairwise_append.mp hsuffix
    exact hrel M hM Y (List.mem_cons_self _ _)
  simpa using le_trans hMY hxy

theorem sweep_emitOk {S : List Body} {p : Body × Body}
    (h : p ∈ sweep left right fine S) : emitOk fine p.1 p.2 := by
  obtain ⟨X, Y⟩ := p
  obtain ⟨s₁, s₂, -, hin⟩ := mem_sweep.mp h
  exact (mem_innerScan.mp hin).2.2

end Sweep

/-! ## Sorting facts and symmetry helpers -/

theorem sortByLeft_pairwise (left : Body → Int) (L : List Body) :
    (sortByLeft left L).Pairwise fun a b => left a ≤ left b := by
  unfold sortByLeft
  have h : (L.mergeSort fun a b => decide (left a ≤ left b)).Pairwise
      fun a b => (fun x y => decide (left x ≤ left y)) a b = true :=
    List.sorted_mergeSort
      (fun a b c h1 h2 => by
        simp only [decide_eq_true_eq] at h1 h2 ⊢
        exact le_trans h1 h2)
      (fun a b => by
        simp only [Bool.or_eq_true, decide_eq_true_eq]
        exact le_total (left a) (left b)) L
  exact h.imp fun hab => by simpa using hab

theorem sortByLeft_perm (left : Body → Int) (L : List Body) :
    (sortByLeft left L).Perm L :=
  List.mergeSort_perm L _

theorem shadow_y_comm (A B : Body) : shadow_y A B = shadow_y B A := by
  unfold shadow_y
  rw [min_comm, max_comm]

theorem aabbOverlap_comm (A B : Body) : aabbOverlap A B ↔ aabbOverlap B A := by
  unfold aabbOverlap
  rw [max_comm, min_comm, shadow_y_comm]

theorem distSq_comm (A B : Body) : distSq A B = distSq B A := by
  unfold distSq
  ring

theorem cbbOverlap_comm (A B : Body) : cbbOverlap A B ↔ cbbOverlap B A := by
  unfold cbbOverlap
  rw [distSq_comm, Int.add_comm A.cbb_radius B.cbb_radius]

theorem bothNonDynamic_comm (A B : Body) :
    bothNonDynamic A B ↔ bothNonDynamic B A := by
  unfold bothNonDynamic
  exact and_comm

theorem bothAsleep_comm (A B : Body) : bothAsleep A B ↔ bothAsleep B A := by
  unfold bothAsleep
  exact and_comm

theorem not_bothNonDynamic_iff {A B : Body} :
    ¬bothNonDynamic A B ↔ (A.is_dynamic = true ∨ B.is_dynamic = true) := by
  cases hA : A.is_dynamic <;> cases hB : B.is_dynamic <;>
    simp [bothNonDynamic, hA, hB]

theorem emitOk_iff {fine : Body → Body → Bool} {A B : Body} :
    emitOk fine A B ↔
      ¬bothNonDynamic A B ∧ ¬bothAsleep A B ∧ fine A B = true := by
  unfold emitOk bothAsleep
  rw [not_bothNonDynamic_iff]

theorem aabbFine_iff {A B : Body} : aabbFine A B = true ↔ 0 < shadow_y A B := by
  simp [aabbFine]

theorem cbbFine_iff {A B : Body} : cbbFine A B = true ↔ cbbOverlap A B := by
  simp [cbbFine, cbbOverlap]

theorem cbbOverlap_break {A B : Body} (h : cbbOverlap A B) :
    cbbLeft B ≤ cbbRight A := by
  obtain ⟨h0, h1⟩ := h
  unfold distSq at h1
  unfold cbbLeft cbbRight
  nlinarith [sq_nonneg (A.posy - B.posy), sq_nonneg (A.posx - B.posx)]

/-! ## Broad-phase characterizations -/

theorem aabb_update_mem_iff {L : List Body} (hnd : L.Nodup)
    (hwf : ∀ b ∈ L, b.xmin ≤ b.xmax) (A B : Body) :
    ((A, B) ∈ BroadPhaseAABB.update L ∨ (B, A) ∈ BroadPhaseAABB.update L) ↔
      A ∈ L ∧ B ∈ L ∧ A ≠ B ∧ aabbOverlap A B ∧
        ¬bothNonDynamic A B ∧ ¬bothAsleep A B := by
  have hs := sortByLeft_pairwise aabbLeft L
  have hperm := sortByLeft_perm aabbLeft L
  have hns : (sortByLeft aabbLeft L).Nodup := hperm.nodup_iff.mpr hnd
  unfold BroadPhaseAABB.update
  constructor
  · rintro (hmem | hmem)
    · obtain ⟨hord, hle, hbr, hemit⟩ := sweep_sound hs hmem
      obtain ⟨hAS, hBS⟩ := orderedIn_mem hord
      have hne := orderedIn_ne hns hord
      have hA : A ∈ L := hperm.mem_iff.mp hAS
      have hB : B ∈ L := hperm.mem_iff.mp hBS
      obtain ⟨hd, hsl, hfine⟩ := emitOk_iff.mp hemit
      simp only [aabbLeft, aabbRight] at hle hbr
      refine ⟨hA, hB, hne, ⟨?_, aabbFine_iff.mp hfine⟩, hd, hsl⟩
      exact max_le (le_min (hwf A hA) (le_trans hle (hwf B hB)))
        (le_min hbr (hwf B hB))
    · obtain ⟨hord, hle, hbr, hemit⟩ := sweep_sound hs hmem
      obtain ⟨hBS, hAS⟩ := orderedIn_mem hord
      have hne := orderedIn_ne hns hord
      have hA : A ∈ L := hperm.mem_iff.mp hAS
      have hB : B ∈ L := hperm.mem_iff.mp hBS
      obtain ⟨hd, hsl, hfine⟩ := emitOk_iff.mp hemit
      simp only [aabbLeft, aabbRight] at hle hbr
      refine ⟨hA, hB, hne.symm, (aabbOverlap_comm B A).mp ⟨?_, aabbFine_iff.mp hfine⟩,
        (bothNonDynamic_comm B A).not.mp hd, (bothAsleep_comm B A).not.mp hsl⟩
      exact max_le (le_min (hwf B hB) (le_trans hle (hwf A hA)))
        (le_min hbr (hwf A hA))
  · rintro ⟨hA, hB, hne, hov, hd, hsl⟩
    have hAS : A ∈ sortByLeft aabbLeft L := hperm.mem_iff.mpr hA
    have hBS : B ∈ sortByLeft aabbLeft L := hperm.mem_iff.mpr hB
    rcases orderedIn_total hAS hBS hne with hord | hord
    · refine Or.inl (sweep_complete hs hord ?_ ?_)
      · show B.xmin ≤ A.xmax
        exact le_trans (le_max_right A.xmin B.xmin)
          (le_trans hov.1 (min_le_left A.xmax B.xmax))
      · exact emitOk_iff.mpr ⟨hd, hsl, aabbFine_iff.mpr hov.2⟩
    · refine Or.inr (sweep_complete hs hord ?_ ?_)
      · show A.xmin ≤ B.xmax
        exact le_trans (le_max_left A.xmin B.xmin)
          (le_trans hov.1 (min_le_right A.xmax B.xmax))
      · exact emitOk_iff.mpr ⟨(bothNonDynamic_comm A B).not.mp hd,
          (bothAsleep_comm A B).not.mp hsl,
          aabbFine_iff.mpr ((shadow_y_comm A B) ▸ hov.2)⟩

theorem cbb_update_mem_iff {L : List Body} (hnd : L.Nodup) (A B : Body) :
    ((A, B) ∈ BroadPhaseCBB.update L ∨ (B, A) ∈ BroadPhaseCBB.update L) ↔
      A ∈ L ∧ B ∈ L ∧ A ≠ B ∧ cbbOverlap A B ∧
        ¬bothNonDynamic A B ∧ ¬bothAsleep A B := by
  have hs := sortByLeft_pairwise cbbLeft L
  have hperm := sortByLeft_perm cbbLeft L
  have hns : (sortByLeft cbbLeft L).Nodup := hperm.nodup_iff.mpr hnd
  unfold BroadPhaseCBB.update
  constructor
  · rintro (hmem | hmem)
    · obtain ⟨hord, -, -, hemit⟩ := sweep_sound hs hmem
      obtain ⟨hAS, hBS⟩ := orderedIn_mem hord
      have hne := orderedIn_ne hns hord
      obtain ⟨hd, hsl, hfine⟩ := emitOk_iff.mp hemit
      exact ⟨hperm.mem_iff.mp hAS, hperm.mem_iff.mp hBS, hne,
        cbbFine_iff.mp hfine, hd, hsl⟩
    · obtain ⟨hord, -, -, hemit⟩ := sweep_sound hs hmem
      obtain ⟨hBS, hAS⟩ := orderedIn_mem hord
      have hne := orderedIn_ne hns hord
      obtain ⟨hd, hsl, hfine⟩ := emitOk_iff.mp hemit
      exact ⟨hperm.mem_iff.mp hAS, hperm.mem_iff.mp hBS, hne.symm,
        (cbbOverlap_comm B A).mp (cbbFine_iff.mp hfine),
        (bothNonDynamic_comm B A).not.mp hd, (bothAsleep_comm B A).not.mp hsl⟩
  · rintro ⟨hA, hB, hne, hov, hd, hsl⟩
    have hAS : A ∈ sortByLeft cbbLeft L := hperm.mem_iff.mpr hA
    have hBS : B ∈ sortByLeft cbbLeft L := hperm.mem_iff.mpr hB
    rcases orderedIn_total hAS hBS hne with hord | hord
    · exact Or.inl (sweep_complete hs hord (cbbOverlap_break hov)
        (emitOk_iff.mpr ⟨hd, hsl, cbbFine_iff.mpr hov⟩))
    · exact Or.inr (sweep_complete hs hord
        (cbbOverlap_break ((cbbOverlap_comm A B).mp hov))
        (emitOk_iff.mpr ⟨(bothNonDynamic_comm A B).not.mp hd,
          (bothAsleep_comm A B).not.mp hsl,
          cbbFine_iff.mpr ((cbbOverlap_comm A B).mp hov)⟩))

/-! ## Narrow-phase dispatch lemmas -/

theorem register_self (r : Registry) (k : Nat × Nat) (t : Test) :
    r.register k t k = some t := by
  simp [Registry.register]

theorem register_other (r : Registry) (k p : Nat × Nat) (t : Test) (h : p ≠ k) :
    r.register k t p = r p := by
  simp [Registry.register, h]

theorem get_collision_direct {gen : Body → Body → Option Contact} {r : Registry}
    {A B : Body} {t : Test} (h : r (A.typ, B.typ) = some t) :
    NarrowPhase.get_collision gen r A B = (runTest gen t A B, r) := by
  unfold NarrowPhase.get_collision
  rw [h]

theorem get_collision_detour_none {gen : Body → Body → Option Contact}
    {r : Registry} {A B : Body} {t : Test} (hd : r (A.typ, B.typ) = none)
    (hrev : r (B.typ, A.typ) = some t) (hrun : runTest gen t B A = none) :
    NarrowPhase.get_collision gen r A B = (none, r) := by
  unfold NarrowPhase.get_collision
  simp only [hd, hrev, hrun]

theorem get_collision_detour_some {gen : Body → Body → Option Contact}
    {r : Registry} {A B : Body} {t : Test} {c : Contact}
    (hd : r (A.typ, B.typ) = none) (hrev : r (B.typ, A.typ) = some t)
    (hrun : runTest gen t B A = some c) :
    NarrowPhase.get_collision gen r A B =
      (some c.negNormal, r.register (A.typ, B.typ) (Test.inv t)) := by
  unfold NarrowPhase.get_collision
  simp only [hd, hrev, hrun]

theorem get_collision_generic_case {gen : Body → Body → Option Contact}
    {r : Registry} {A B : Body} (hd : r (A.typ, B.typ) = none)
    (hrev : r (B.typ, A.typ) = none) :
    NarrowPhase.get_collision gen r A B =
      (gen A B,
        (r.register (A.typ, B.typ) Test.generic).register (B.typ, A.typ) Test.generic) := by
  unfold NarrowPhase.get_collision
  rw [hd, hrev]

theorem signEquiv_refl (o : Option Contact) : signEquiv o o := by
  cases o with
  | none => trivial
  | some c => exact ⟨rfl, Or.inl ⟨rfl, rfl⟩, Or.inl rfl⟩

/-! ## Claim theorems -/

/-- Claim C1: for every finite input list of bodies (duplicate-free, and with
well-formed horizontal extents for the box variant), the set of unordered pairs
produced by a broad-phase update — AABB or CBB variant — equals the set of all
unordered pairs of distinct input bodies whose bounding volumes overlap under
that variant's test, minus every pair with both bodies non-dynamic and every
pair with both bodies asleep; and no both-non-dynamic or both-asleep pair ever
appears in either output. -/
theorem broadphase_update_pairs (L : List Body) (hnd : L.Nodup) :
    (∀ A B : Body, (∀ b ∈ L, b.xmin ≤ b.xmax) →
      (((A, B) ∈ BroadPhaseAABB.update L ∨ (B, A) ∈ BroadPhaseAABB.update L) ↔
        A ∈ L ∧ B ∈ L ∧ A ≠ B ∧ aabbOverlap A B ∧
          ¬bothNonDynamic A B ∧ ¬bothAsleep A B)) ∧
    (∀ A B : Body,
      ((A, B) ∈ BroadPhaseCBB.update L ∨ (B, A) ∈ BroadPhaseCBB.update L) ↔
        A ∈ L ∧ B ∈ L ∧ A ≠ B ∧ cbbOverlap A B ∧
          ¬bothNonDynamic A B ∧ ¬bothAsleep A B) ∧
    (∀ p ∈ BroadPhaseAABB.update L,
      ¬bothNonDynamic p.1 p.2 ∧ ¬bothAsleep p.1 p.2) ∧
    (∀ p ∈ BroadPhaseCBB.update L,
      ¬bothNonDynamic p.1 p.2 ∧ ¬bothAsleep p.1 p.2) := by
  refine ⟨fun A B hwf => aabb_update_mem_iff hnd hwf A B,
    fun A B => cbb_update_mem_iff hnd A B, ?_, ?_⟩
  · intro p hp
    have h := sweep_emitOk hp
    obtain ⟨hd, hsl, -⟩ := emitOk_iff.mp h
    exact ⟨hd, hsl⟩
  · intro p hp
    have h := sweep_emitOk hp
    obtain ⟨hd, hsl, -⟩ := emitOk_iff.mp h
    exact ⟨hd, hsl⟩

/-- Witness for C1 at the concrete two-body list `[bodyP, bodyQ]`. -/
theorem broadphase_update_pairs_witness :
    [bodyP, bodyQ].Nodup ∧ (∀ b ∈ [bodyP, bodyQ], b.xmin ≤ b.xmax) ∧
    (((bodyP, bodyQ) ∈ BroadPhaseAABB.update [bodyP, bodyQ] ∨
        (bodyQ, bodyP) ∈ BroadPhaseAABB.update [bodyP, bodyQ]) ↔
      bodyP ∈ [bodyP, bodyQ] ∧ bodyQ ∈ [bodyP, bodyQ] ∧ bodyP ≠ bodyQ ∧
        aabbOverlap bodyP bodyQ ∧ ¬bothNonDynamic bodyP bodyQ ∧
          ¬bothAsleep bodyP bodyQ) :=
  ⟨by decide, by decide,
    (broadphase_update_pairs [bodyP, bodyQ] (by decide)).1 bodyP bodyQ (by decide)⟩

/-- Claim C2: `NarrowPhase.update` emits a contact exactly for the candidate
pairs whose (registry-threaded) resolution by `get_collision` reports a
collision — the output list is, in order, the `some` results of `resolveAll`
each with its `world` back-reference set to the phase's world — and every
emitted contact carries the phase's world; pairs whose resolution reports no
collision contribute nothing. -/
theorem narrow_update_emits_exactly (gen : Body → Body → Option Contact)
    (w : Option Nat) (r : Registry) (ps : List (Body × Body)) :
    (NarrowPhase.update gen w r ps).1 =
      ((resolveAll gen r ps).reduceOption).map (fun c => c.setWorld w) ∧
    ∀ c ∈ (NarrowPhase.update gen w r ps).1, c.world = w := by
  have heq : ∀ (ps : List (Body × Body)) (r : Registry),
      (NarrowPhase.update gen w r ps).1 =
        ((resolveAll gen r ps).reduceOption).map fun c => c.setWorld w := by
    intro ps
    induction ps with
    | nil => intro r; rfl
    | cons p ps ih =>
      intro r
      obtain ⟨A, B⟩ := p
      simp only [NarrowPhase.update, resolveAll]
      cases hres : NarrowPhase.get_collision gen r A B with
      | mk o r1 =>
        cases o with
        | none => simpa using ih r1
        | some col => simpa using ih r1
  refine ⟨heq ps r, ?_⟩
  intro c hc
  rw [heq ps r] at hc
  obtain ⟨c1, -, rfl⟩ := List.mem_map.mp hc
  rfl

/-- Claim C3: after a first `get_collision(A, B)` call resolves an unregistered
type pair through the reversed-detour branch (reversed test found and reporting
a collision) or the generic-registration branch, every subsequent call for
bodies of the same two concrete types hits the newly cached registry entry
directly, and its result is equal, up to the normal-vector sign convention, to
the result the uncached (pre-first-call) registry would have produced for those
bodies. -/
theorem get_collision_cached_equiv (gen : Body → Body → Option Contact)
    (r : Registry) (A B : Body) (hdirect : r (A.typ, B.typ) = none)
    (hbranch : r (B.typ, A.typ) = none ∨
      ∃ t c, r (B.typ, A.typ) = some t ∧ runTest gen t B A = some c) :
    ∀ A' B' : Body, A'.typ = A.typ → B'.typ = B.typ →
      ∃ t', (NarrowPhase.get_collision gen r A B).2 (A'.typ, B'.typ) = some t' ∧
        (NarrowPhase.get_collision gen
            ((NarrowPhase.get_collision gen r A B).2) A' B').1 =
          runTest gen t' A' B' ∧
        signEquiv
          (NarrowPhase.get_collision gen
            ((NarrowPhase.get_collision gen r A B).2) A' B').1
          (NarrowPhase.get_collision gen r A' B').1 := by
  intro A' B' hA' hB'
  have hd' : r (A'.typ, B'.typ) = none := by rw [hA', hB']; exact hdirect
  rcases hbranch with hrev | ⟨t, c, hrev, hrun⟩
  · -- generic-registration branch
    have hrev' : r (B'.typ, A'.typ) = none := by rw [hA', hB']; exact hrev
    rw [get_collision_generic_case hdirect hrev]
    have hlook :
        ((r.register (A.typ, B.typ) Test.generic).register (B.typ, A.typ)
            Test.generic) (A'.typ, B'.typ) = some Test.generic := by
      rw [hA', hB']
      unfold Registry.register
      by_cases h : ((A.typ, B.typ) : Nat × Nat) = (B.typ, A.typ)
      · simp [h]
      · simp [h]
    refine ⟨Test.generic, hlook, ?_, ?_⟩
    · rw [get_collision_direct hlook]
    · rw [get_collision_direct hlook, get_collision_generic_case hd' hrev']
      exact signEquiv_refl _
  · -- reversed-detour branch with a collision found
    have hrev' : r (B'.typ, A'.typ) = some t := by rw [hA', hB']; exact hrev
    rw [get_collision_detour_some hdirect hrev hrun]
    have hlook : (r.register (A.typ, B.typ) (Test.inv t)) (A'.typ, B'.typ) =
        some (Test.inv t) := by
      rw [hA', hB']
      exact register_self r _ _
    refine ⟨Test.inv t, hlook, ?_, ?_⟩
    · rw [get_collision_direct hlook]
    · rw [get_collision_direct hlook]
      cases hr : runTest gen t B' A' with
      | none =>
        rw [get_collision_detour_none hd' hrev' hr]
        simp only [runTest, hr, Option.map_none']
        trivial
      | some col =>
        rw [get_collision_detour_some hd' hrev' hr]
        simp only [runTest, hr, Option.map_some']
        exact ⟨rfl, Or.inr ⟨rfl, rfl⟩, Or.inl rfl⟩

/-- Witness for C3: the registry `regW` holds only a reversed test for the type
pair of `(bodyA0, bodyB0)`; the first call caches an entry that subsequent
calls use, with a sign-equivalent result. -/
theorem get_collision_cached_equiv_witness :
    regW (bodyA0.typ, bodyB0.typ) = none ∧
    (∃ t', (NarrowPhase.get_collision genW regW bodyA0 bodyB0).2
          (bodyA0.typ, bodyB0.typ) = some t' ∧
        (NarrowPhase.get_collision genW
            ((NarrowPhase.get_collision genW regW bodyA0 bodyB0).2)
            bodyA0 bodyB0).1 = runTest genW t' bodyA0 bodyB0 ∧
        signEquiv
          (NarrowPhase.get_collision genW
            ((NarrowPhase.get_collision genW regW bodyA0 bodyB0).2)
            bodyA0 bodyB0).1
          (NarrowPhase.get_collision genW regW bodyA0 bodyB0).1) :=
  ⟨rfl, get_collision_cached_equiv genW regW bodyA0 bodyB0 rfl
    (Or.inr ⟨Test.base fW, ⟨bodyB0, bodyA0, (2, 3), none⟩, rfl, rfl⟩)
    bodyA0 bodyB0 rfl rfl⟩

/-- Claim C4: when neither the ordered type pair `(type(A), type(B))` nor the
reversed pair is registered, `get_collision` registers the generic fallback
under both ordered type pairs, leaves every other registry entry unchanged,
and returns the result of invoking the generic fallback on `(A, B)` directly. -/
theorem get_collision_registers_generic (gen : Body → Body → Option Contact)
    (r : Registry) (A B : Body) (hd : r (A.typ, B.typ) = none)
    (hrev : r (B.typ, A.typ) = none) :
    (NarrowPhase.get_collision gen r A B).1 = gen A B ∧
    (NarrowPhase.get_collision gen r A B).2 (A.typ, B.typ) = some Test.generic ∧
    (NarrowPhase.get_collision gen r A B).2 (B.typ, A.typ) = some Test.generic ∧
    ∀ p : Nat × Nat, p ≠ (A.typ, B.typ) → p ≠ (B.typ, A.typ) →
      (NarrowPhase.get_collision gen r A B).2 p = r p := by
  rw [get_collision_generic_case hd hrev]
  refine ⟨rfl, ?_, ?_, ?_⟩
  · unfold Registry.register
    by_cases h : ((A.typ, B.typ) : Nat × Nat) = (B.typ, A.typ)
    · simp [h]
    · simp [h]
  · exact register_self _ _ _
  · intro p h1 h2
    show ((r.register (A.typ, B.typ) Test.generic).register (B.typ, A.typ)
      Test.generic) p = r p
    rw [register_other _ _ _ _ h2, register_other _ _ _ _ h1]

/-- Witness for C4 on the empty registry and the pair `(bodyA0, bodyB0)`. -/
theorem get_collision_registers_generic_witness :
    emptyReg (bodyA0.typ, bodyB0.typ) = none ∧
    emptyReg (bodyB0.typ, bodyA0.typ) = none ∧
    (NarrowPhase.get_collision genW emptyReg bodyA0 bodyB0).1 =
      genW bodyA0 bodyB0 ∧
    (NarrowPhase.get_collision genW emptyReg bodyA0 bodyB0).2
      (bodyA0.typ, bodyB0.typ) = some Test.generic :=
  ⟨rfl, rfl,
    (get_collision_registers_generic genW emptyReg bodyA0 bodyB0 rfl rfl).1,
    (get_collision_registers_generic genW emptyReg bodyA0 bodyB0 rfl rfl).2.1⟩

/-- Counterexample to C5 as stated: in `regNoneW` the reversed pair `(1, 0)` is
registered (with a test that reports no collision), the direct pair `(0, 1)` is
not, yet after `get_collision(bodyA0, bodyB0)` no wrapper has been registered
under `(0, 1)` — the synthesis-and-registration only happens when the reversed
test reports a collision. -/
theorem get_collision_reversed_no_register_cex :
    regNoneW (bodyA0.typ, bodyB0.typ) = none ∧
    regNoneW (bodyB0.typ, bodyA0.typ) = some (Test.base fNoneW) ∧
    (NarrowPhase.get_collision genW regNoneW bodyA0 bodyB0).1 = none ∧
    (NarrowPhase.get_collision genW regNoneW bodyA0 bodyB0).2
      (bodyA0.typ, bodyB0.typ) = none :=
  ⟨rfl, rfl, rfl, rfl⟩

/-- Claim C5 (amended: the synthesis happens only when the reversed test,
invoked on `(B, A)`, reports a collision): in that case `get_collision`
registers under `(type(A), type(B))` the `inverse` wrapper around the reversed
implementation — the wrapper calls it with swapped arguments and applies
`swapped()` to a produced contact — so every future pair of these exact
concrete types resolves in one direct registry lookup. -/
theorem get_collision_reversed_registers (gen : Body → Body → Option Contact)
    (r : Registry) (A B : Body) (t : Test) (c : Contact)
    (hd : r (A.typ, B.typ) = none) (hrev : r (B.typ, A.typ) = some t)
    (hrun : runTest gen t B A = some c) :
    (NarrowPhase.get_collision gen r A B).2 (A.typ, B.typ) =
      some (Test.inv t) ∧
    (∀ X Y : Body, runTest gen (Test.inv t) X Y =
      Option.map Contact.swapped (runTest gen t Y X)) ∧
    ∀ A' B' : Body, A'.typ = A.typ → B'.typ = B.typ →
      NarrowPhase.get_collision gen
          ((NarrowPhase.get_collision gen r A B).2) A' B' =
        (runTest gen (Test.inv t) A' B',
          (NarrowPhase.get_collision gen r A B).2) := by
  rw [get_collision_detour_some hd hrev hrun]
  refine ⟨register_self _ _ _, fun X Y => rfl, ?_⟩
  intro A' B' hA' hB'
  have hlook : (r.register (A.typ, B.typ) (Test.inv t)) (A'.typ, B'.typ) =
      some (Test.inv t) := by
    rw [hA', hB']
    exact register_self r _ _
  exact get_collision_direct hlook

/-- Witness for C5 (amended) on `regW`, whose reversed test reports a
collision for `(bodyB0, bodyA0)`. -/
theorem get_collision_reversed_registers_witness :
    regW (bodyA0.typ, bodyB0.typ) = none ∧
    regW (bodyB0.typ, bodyA0.typ) = some (Test.base fW) ∧
    runTest genW (Test.base fW) bodyB0 bodyA0 =
      some ⟨bodyB0, bodyA0, (2, 3), none⟩ ∧
    (NarrowPhase.get_collision genW regW bodyA0 bodyB0).2
      (bodyA0.typ, bodyB0.typ) = some (Test.inv (Test.base fW)) :=
  ⟨rfl, rfl, rfl,
    (get_collision_reversed_registers genW regW bodyA0 bodyB0 (Test.base fW)
      ⟨bodyB0, bodyA0, (2, 3), none⟩ rfl rfl rfl).1⟩

/-- Counterexample to C6 as stated: with `regW`, whose reversed test reports a
collision, `get_collision(bodyA0, bodyB0)` does change the registry's mapping
for `(type(A), type(B))` — before the call it is `none`, afterwards an entry is
present. -/
theorem get_collision_reversed_persists_cex :
    regW (bodyA0.typ, bodyB0.typ) = none ∧
    ((NarrowPhase.get_collision genW regW bodyA0 bodyB0).2
      (bodyA0.typ, bodyB0.typ)).isSome = true :=
  ⟨rfl, rfl⟩

/-- Claim C6 (amended: the collision is returned with its normal negated, but
the inferred `inverse` entry IS persisted under `(type(A), type(B))` in this
branch; all other registry entries are left unchanged). -/
theorem get_collision_reversed_result (gen : Body → Body → Option Contact)
    (r : Registry) (A B : Body) (t : Test) (c : Contact)
    (hd : r (A.typ, B.typ) = none) (hrev : r (B.typ, A.typ) = some t)
    (hrun : runTest gen t B A = some c) :
    (NarrowPhase.get_collision gen r A B).1 = some c.negNormal ∧
    (NarrowPhase.get_collision gen r A B).2 (A.typ, B.typ) =
      some (Test.inv t) ∧
    ∀ p : Nat × Nat, p ≠ (A.typ, B.typ) →
      (NarrowPhase.get_collision gen r A B).2 p = r p := by
  rw [get_collision_detour_some hd hrev hrun]
  exact ⟨rfl, register_self _ _ _, fun p hp => register_other _ _ _ _ hp⟩

/-- Witness for C6 (amended) on `regW`. -/
theorem get_collision_reversed_result_witness :
    runTest genW (Test.base fW) bodyB0 bodyA0 =
      some ⟨bodyB0, bodyA0, (2, 3), none⟩ ∧
    (NarrowPhase.get_collision genW regW bodyA0 bodyB0).1 =
      some (Contact.negNormal ⟨bodyB0, bodyA0, (2, 3), none⟩) :=
  ⟨rfl,
    (get_collision_reversed_result genW regW bodyA0 bodyB0 (Test.base fW)
      ⟨bodyB0, bodyA0, (2, 3), none⟩ rfl rfl rfl).1⟩

/-- Claim C7: when the direct entry for `(type(A), type(B))` is missing but a
test is registered for `(type(B), type(A))`, the normal of the contact
`get_collision(A, B)` returns via the reversed detour is exactly the negation
of the normal of the contact obtained by directly resolving `(B, A)`, which
hits that same registered test. -/
theorem get_collision_reversed_normal_negation
    (gen : Body → Body → Option Contact) (r : Registry) (A B : Body) (t : Test)
    (c : Contact) (hd : r (A.typ, B.typ) = none)
    (hrev : r (B.typ, A.typ) = some t)
    (hc : (NarrowPhase.get_collision gen r B A).1 = some c) :
    ∃ d, (NarrowPhase.get_collision gen r A B).1 = some d ∧
      d.normal = (-c.normal.1, -c.normal.2) := by
  rw [get_collision_direct hrev] at hc
  exact ⟨c.negNormal, by rw [get_collision_detour_some hd hrev hc], rfl⟩

/-- Witness for C7 on `regW`: the direct resolution of `(bodyB0, bodyA0)` has
normal `(2, 3)` and the reversed-detour resolution of `(bodyA0, bodyB0)` has
normal `(-2, -3)`. -/
theorem get_collision_reversed_normal_negation_witness :
    (NarrowPhase.get_collision genW regW bodyB0 bodyA0).1 =
      some ⟨bodyB0, bodyA0, (2, 3), none⟩ ∧
    (∃ d, (NarrowPhase.get_collision genW regW bodyA0 bodyB0).1 = some d ∧
      d.normal = (-(2 : Int), -(3 : Int))) :=
  ⟨rfl,
    get_collision_reversed_normal_negation genW regW bodyA0 bodyB0
      (Test.base fW) ⟨bodyB0, bodyA0, (2, 3), none⟩ rfl rfl rfl⟩

/-- Counterexample to C8 as stated: the narrow phase's results do not depend
only on the input — an earlier `update` extends the shared dispatch registry,
and a second `update` on the very same input produces a different result list
(the cached `inverse` wrapper yields a contact with swapped roles instead of
the detour's negated-normal contact with original roles). -/
theorem narrow_update_depends_on_registry_cex :
    (NarrowPhase.update genW none
        ((NarrowPhase.update genW none regW pairsW).2) pairsW).1 ≠
      (NarrowPhase.update genW none regW pairsW).1 := by
  decide

/-- Claim C8 (amended: every phase's `update` replaces the held result list —
the new results are independent of any previously held results and hence never
accumulate — and, the embedding being pure, the input sequence is not mutated;
for the broad phases the results depend only on the input list, while the
narrow phase's results additionally depend on the shared dispatch registry
state, which earlier updates may have extended). -/
theorem update_replaces_held_results :
    (∀ (p q : BroadPhaseState) (L : List Body),
      (BroadPhaseAABB.updatePhase p L)._data =
        (BroadPhaseAABB.updatePhase q L)._data) ∧
    (∀ (p q : BroadPhaseState) (L : List Body),
      (BroadPhaseCBB.updatePhase p L)._data =
        (BroadPhaseCBB.updatePhase q L)._data) ∧
    (∀ (gen : Body → Body → Option Contact) (p q : NarrowPhaseState)
        (r : Registry) (ps : List (Body × Body)), p.world = q.world →
      (NarrowPhase.updatePhase gen p r ps).1._data =
        (NarrowPhase.updatePhase gen q r ps).1._data) := by
  refine ⟨fun p q L => rfl, fun p q L => rfl, ?_⟩
  intro gen p q r ps hw
  simp [NarrowPhase.updatePhase, hw]

/-- Witness for C8 (amended): two narrow phases with the same world but
different held data produce the same fresh results. -/
theorem update_replaces_held_results_witness :
    (NarrowPhaseState.world ⟨none, []⟩ = NarrowPhaseState.world ⟨none, [contactW]⟩) ∧
    (NarrowPhase.updatePhase genW ⟨none, []⟩ regW pairsW).1._data =
      (NarrowPhase.updatePhase genW ⟨none, [contactW]⟩ regW pairsW).1._data :=
  ⟨rfl, update_replaces_held_results.2.2 genW ⟨none, []⟩ ⟨none, [contactW]⟩
    regW pairsW rfl⟩

/-- Claim C9: `NarrowPhase.get_groups` is supposed (per its own docstring and
the spec) to return the maximal connected components of the collision graph,
but the source builds a `BroadPhaseAABB` holding the contacts, prints it, and
returns `None` for every input — here evaluated at the concrete failing input
`[contactW]` and at all inputs. -/
theorem get_groups_returns_no_groups :
    (NarrowPhase.get_groups [contactW]).2 = none ∧
      ∀ cols : List Contact, (NarrowPhase.get_groups cols).2 = none :=
  ⟨rfl, fun _ => rfl⟩

/-- Claim C10: the broad-phase overlap tests are inclusive at the exact-touch
boundary: in the CBB variant a pair whose center distance exactly equals the
radius sum passes the fine test (the skip fires only for strictly greater
distance) and is reported; in the AABB variant a pair with `B.xmin = A.xmax`
is not pruned by the sweep break (which fires only for strictly greater) and
is reported provided its vertical shadow is strictly positive — in both cases
assuming the dynamic/sleep filters pass. -/
theorem broadphase_touch_included (L : List Body) (hnd : L.Nodup) (A B : Body)
    (hA : A ∈ L) (hB : B ∈ L) (hne : A ≠ B) (hdyn : ¬bothNonDynamic A B)
    (hsleep : ¬bothAsleep A B) :
    (distSq A B =
        (A.cbb_radius + B.cbb_radius) * (A.cbb_radius + B.cbb_radius) →
      0 ≤ A.cbb_radius + B.cbb_radius →
      cbbFine A B = true ∧
        ((A, B) ∈ BroadPhaseCBB.update L ∨ (B, A) ∈ BroadPhaseCBB.update L)) ∧
    ((∀ b ∈ L, b.xmin ≤ b.xmax) → B.xmin = A.xmax → 0 < shadow_y A B →
      ((A, B) ∈ BroadPhaseAABB.update L ∨ (B, A) ∈ BroadPhaseAABB.update L)) := by
  constructor
  · intro hdist hrad
    have hov : cbbOverlap A B := ⟨hrad, le_of_eq hdist⟩
    exact ⟨cbbFine_iff.mpr hov,
      (cbb_update_mem_iff hnd A B).mpr ⟨hA, hB, hne, hov, hdyn, hsleep⟩⟩
  · intro hwf hx hsh
    have hov : aabbOverlap A B := by
      refine ⟨?_, hsh⟩
      have h1 : A.xmin ≤ A.xmax := hwf A hA
      have h2 : B.xmin ≤ B.xmax := hwf B hB
      have h3 : A.xmax ≤ B.xmax := hx ▸ h2
      exact max_le (le_min h1 (le_trans h1 h3)) (le_min (le_of_eq hx) h2)
    exact (aabb_update_mem_iff hnd hwf A B).mpr ⟨hA, hB, hne, hov, hdyn, hsleep⟩

/-- Witness for C10: `bodyP` and `bodyR` touch exactly in both variants
(center distance 2 equals the radius sum, and `bodyR.xmin = bodyP.xmax`), and
both broad phases report the pair. -/
theorem broadphase_touch_included_witness :
    (cbbFine bodyP bodyR = true ∧
      ((bodyP, bodyR) ∈ BroadPhaseCBB.update [bodyP, bodyR] ∨
        (bodyR, bodyP) ∈ BroadPhaseCBB.update [bodyP, bodyR])) ∧
    ((bodyP, bodyR) ∈ BroadPhaseAABB.update [bodyP, bodyR] ∨
      (bodyR, bodyP) ∈ BroadPhaseAABB.update [bodyP, bodyR]) :=
  ⟨(broadphase_touch_included [bodyP, bodyR] (by decide) bodyP bodyR (by decide)
      (by decide) (by decide) (by decide) (by decide)).1 (by decide) (by decide),
    (broadphase_touch_included [bodyP, bodyR] (by decide) bodyP bodyR (by decide)
      (by decide) (by decide) (by decide) (by decide)).2 (by decide) (by decide)
      (by decide)⟩

end FGAme
